import Mathlib

/-!
Verification of the YTTranscriber pipeline (three Python scripts:
00_download_youtube_audio.py, 01_transcribe_audio.py,
02_summarize_transcription.py) against its design specification.

Strings are modelled as lists of characters.  Python `str.split()`
(whitespace split, empty tokens discarded) and space joining are embedded
as `splitWords` and `joinSp`.  The sentence splitter, the chunker, the path
construction helpers and the prompt construction are translated directly
from the source; the two hosted network services (speech-to-text and text
generation) are opaque request/response boundaries in the design and are
abstracted as oracle parameters.
-/

set_option maxRecDepth 100000

/-- A Python string, modelled as its list of characters. -/
abbrev Str := List Char

/-- Character list of a Lean string literal. -/
def strL (s : String) : Str := s.data

/-- Worker for `splitWords`; `acc` holds the (reversed) word in progress. -/
def splitWordsAux : Str → Str → List Str
  | [], acc => if acc = [] then [] else [acc.reverse]
  | c :: cs, acc =>
    if c.isWhitespace then
      (if acc = [] then [] else [acc.reverse]) ++ splitWordsAux cs []
    else splitWordsAux cs (c :: acc)

/-- Python `s.split()`: split on whitespace runs, discarding empty tokens. -/
def splitWords (s : Str) : List Str := splitWordsAux s []

/-- Python space join of a list of strings. -/
def joinSp : List Str → Str
  | [] => []
  | [x] => x
  | x :: y :: rest => x ++ ' ' :: joinSp (y :: rest)

/-- Word count of a sentence, Python `len(sentence.split())`. -/
def wc (s : Str) : Nat := (splitWords s).length

/-- Sum of the word counts of a list of sentences. -/
def sentSum (l : List Str) : Nat := (l.map wc).sum

/-- Python slice `xs[-k:]` for a natural `k`: the whole list when `k = 0`
(since `-0 == 0`), otherwise the last `min k (length xs)` elements. -/
def pySliceLast (xs : List Str) (k : Nat) : List Str :=
  if k = 0 then xs else xs.drop (xs.length - k)

/-- The last `k` elements of a word list. -/
def lastWords (k : Nat) (xs : List Str) : List Str := xs.drop (xs.length - k)

-- ## Sentence splitting (02_summarize_transcription.py, split_into_sentences)

/-- One of the sentence-ending characters of the regex `(?<=[.!?]) +`. -/
def isSentenceEnd (c : Char) : Bool := c == '.' || c == '!' || c == '?'

/-- Worker for `split_into_sentences`.  `acc` is the reversed current
sentence, so its head is the character immediately before the scan position
(the lookbehind position of the regex `(?<=[.!?]) +`).  The flag `skipping`
is true while the scan is inside the run of spaces of a match, which the
regex consumes greedily; in that state `acc` is empty. -/
def splitSentencesAux : Str → Str → Bool → List Str
  | [], acc, _ => [acc.reverse]
  | c :: cs, acc, skipping =>
    if skipping then
      if c == ' ' then splitSentencesAux cs acc true
      else splitSentencesAux cs [c] false
    else if c == ' ' && (match acc with | p :: _ => isSentenceEnd p | [] => false) then
      acc.reverse :: splitSentencesAux cs [] true
    else
      splitSentencesAux cs (c :: acc) false

/-- `split_into_sentences`: re.split on the pattern `(?<=[.!?]) +` — a split point
is a maximal run of spaces whose immediately preceding character is one of
`.`, `!`, `?`; the spaces are consumed. -/
def split_into_sentences (text : Str) : List Str := splitSentencesAux text [] false

-- ## Chunking (02_summarize_transcription.py, create_chunks)

/-- The overlap computation performed when a chunk is closed:
the words of the space-joined current chunk, then
`words[-overlap_words:]` if `len(words) >= overlap_words` else `words[:]`. -/
def overlapOf (current : List Str) (overlap_words : Nat) : List Str :=
  let words := splitWords (joinSp current)
  if words.length ≥ overlap_words then pySliceLast words overlap_words
  else words

/-- The sentence loop of `create_chunks`, with the accumulated output
`chunks`, the current chunk `current` and `current_word_count` as explicit
state.  On the trailing flush, `if current_chunk:` is Python list
truthiness, i.e. non-emptiness. -/
def createChunksLoop (maxW ow : Nat) : List Str → List Str → List Str → Nat → List Str
  | [], chunks, current, _ =>
      if current = [] then chunks else chunks ++ [joinSp current]
  | s :: rest, chunks, current, count =>
      if count + wc s > maxW then
        createChunksLoop maxW ow rest (chunks ++ [joinSp current])
          [joinSp (overlapOf current ow), s]
          ((overlapOf current ow).length + wc s)
      else
        createChunksLoop maxW ow rest chunks (current ++ [s]) (count + wc s)

/-- `create_chunks(sentences, max_words, overlap_words)`. -/
def create_chunks (sentences : List Str) (max_words overlap_words : Nat) : List Str :=
  createChunksLoop max_words overlap_words sentences [] [] 0

-- ## Lemmas about whitespace splitting and space joining

lemma space_isWhitespace : (' ' : Char).isWhitespace = true := by decide

/-- Splitting distributes over a single separating space. -/
lemma splitWordsAux_space (a : Str) : ∀ (acc b : Str),
    splitWordsAux (a ++ ' ' :: b) acc = splitWordsAux a acc ++ splitWordsAux b [] := by
  induction a with
  | nil =>
      intro acc b
      simp only [List.nil_append, splitWordsAux, space_isWhitespace, if_true]
  | cons c a ih =>
      intro acc b
      by_cases h : c.isWhitespace
      · simp [splitWordsAux, h, ih, List.append_assoc]
      · simp [splitWordsAux, h, ih]

/-- Splitting distributes over a separating space, starting from an empty
accumulator. -/
lemma splitWords_append_space (a b : Str) :
    splitWords (a ++ ' ' :: b) = splitWords a ++ splitWords b :=
  splitWordsAux_space a [] b

/-- Splitting a space join of sentences yields the concatenation of the
splits of the sentences. -/
lemma splitWords_joinSp (xs : List Str) :
    splitWords (joinSp xs) = xs.flatMap splitWords := by
  induction xs with
  | nil => simp [joinSp, splitWords, splitWordsAux]
  | cons x xs ih =>
      cases xs with
      | nil => simp [joinSp]
      | cons y rest =>
          show splitWords (x ++ ' ' :: joinSp (y :: rest)) = _
          rw [splitWords_append_space, ih]
          simp

/-- Every token produced by `splitWordsAux` is non-empty and
whitespace-free, given the same invariant for the in-progress word. -/
lemma splitWordsAux_words : ∀ (s acc : Str),
    (∀ c ∈ acc, c.isWhitespace = false) →
    ∀ w ∈ splitWordsAux s acc, w ≠ [] ∧ ∀ c ∈ w, c.isWhitespace = false := by
  intro s
  induction s with
  | nil =>
      intro acc hacc w hw
      by_cases h : acc = []
      · simp [splitWordsAux, h] at hw
      · simp only [splitWordsAux, h, if_false, List.mem_singleton] at hw
        subst hw
        refine ⟨by simpa using h, ?_⟩
        intro c hc
        exact hacc c (List.mem_reverse.mp hc)
  | cons c cs ih =>
      intro acc hacc w hw
      by_cases h : c.isWhitespace
      · simp only [splitWordsAux, h, if_true, List.mem_append] at hw
        rcases hw with hw | hw
        · by_cases hn : acc = []
          · simp [hn] at hw
          · simp only [hn, if_false, List.mem_singleton] at hw
            subst hw
            refine ⟨by simpa using hn, ?_⟩
            intro d hd
            exact hacc d (List.mem_reverse.mp hd)
        · exact ih [] (by intro d hd; simp at hd) w hw
      · simp only [splitWordsAux, h, if_false] at hw
        refine ih (c :: acc) ?_ w hw
        intro d hd
        rcases List.mem_cons.mp hd with hd | hd
        · subst hd; simpa using h
        · exact hacc d hd

/-- Every word of a split is non-empty and whitespace-free. -/
lemma splitWords_words (s : Str) :
    ∀ w ∈ splitWords s, w ≠ [] ∧ ∀ c ∈ w, c.isWhitespace = false :=
  splitWordsAux_words s [] (by intro c hc; simp at hc)

/-- A non-empty whitespace-free token is completed onto the accumulator. -/
lemma splitWordsAux_of_word : ∀ (w acc : Str), w ≠ [] →
    (∀ c ∈ w, c.isWhitespace = false) →
    splitWordsAux w acc = [acc.reverse ++ w] := by
  intro w
  induction w with
  | nil => intro acc h; exact absurd rfl h
  | cons c cs ih =>
      intro acc _ hchars
      have hc : c.isWhitespace = false := hchars c (List.mem_cons_self c cs)
      cases cs with
      | nil => simp [splitWordsAux, hc]
      | cons d ds =>
          have hrec := ih (c :: acc) (by simp)
            (by intro e he; exact hchars e (List.mem_cons_of_mem c he))
          have h1 : splitWordsAux (c :: d :: ds) acc = splitWordsAux (d :: ds) (c :: acc) := by
            simp [splitWordsAux, hc]
          rw [h1, hrec]
          simp

/-- Splitting a single non-empty whitespace-free word returns that word. -/
lemma splitWords_of_word (w : Str) (h : w ≠ [])
    (hchars : ∀ c ∈ w, c.isWhitespace = false) : splitWords w = [w] := by
  unfold splitWords
  rw [splitWordsAux_of_word w [] h hchars]
  simp

/-- Joining a list of genuine words and re-splitting recovers the list. -/
lemma splitWords_joinSp_words (ws : List Str)
    (h : ∀ w ∈ ws, w ≠ [] ∧ ∀ c ∈ w, c.isWhitespace = false) :
    splitWords (joinSp ws) = ws := by
  rw [splitWords_joinSp]
  induction ws with
  | nil => simp
  | cons w ws ih =>
      have hw := h w (List.mem_cons_self w ws)
      rw [List.flatMap_cons, splitWords_of_word w hw.1 hw.2,
        ih (by intro x hx; exact h x (List.mem_cons_of_mem w hx))]
      simp

/-- The word count of a space join is the sum of the word counts. -/
lemma wc_joinSp (xs : List Str) : wc (joinSp xs) = sentSum xs := by
  unfold wc sentSum
  rw [splitWords_joinSp]
  induction xs with
  | nil => simp
  | cons x xs ih => simp [ih, wc]

-- ## Annotated chunks

/-- A produced chunk together with its provenance: `pre` is the seed part of
`current_chunk` (empty for the first chunk, the single overlap text after a
close) and `sents` are the sentences placed into the chunk. -/
structure ChunkInfo where
  pre : List Str
  sents : List Str
deriving DecidableEq

/-- The chunk text: the space join of the current chunk. -/
def ChunkInfo.text (ci : ChunkInfo) : Str := joinSp (ci.pre ++ ci.sents)

/-- Mirror of `createChunksLoop` that records, for each emitted chunk, its
seed part and its sentences. -/
def chunksAnnotLoop (maxW ow : Nat) :
    List Str → List ChunkInfo → List Str → List Str → Nat → List ChunkInfo
  | [], acc, pre, sents, _ =>
      if pre ++ sents = [] then acc else acc ++ [⟨pre, sents⟩]
  | s :: rest, acc, pre, sents, count =>
      if count + wc s > maxW then
        chunksAnnotLoop maxW ow rest (acc ++ [⟨pre, sents⟩])
          [joinSp (overlapOf (pre ++ sents) ow)] [s]
          ((overlapOf (pre ++ sents) ow).length + wc s)
      else
        chunksAnnotLoop maxW ow rest acc pre (sents ++ [s]) (count + wc s)

/-- Annotated chunk list for a sentence list. -/
def chunksAnnot (S : List Str) (maxW ow : Nat) : List ChunkInfo :=
  chunksAnnotLoop maxW ow S [] [] [] 0

/-- The annotated loop projects onto the plain chunker loop. -/
lemma chunksAnnotLoop_text (maxW ow : Nat) : ∀ (S : List Str)
    (acc : List ChunkInfo) (pre sents : List Str) (count : Nat),
    (chunksAnnotLoop maxW ow S acc pre sents count).map ChunkInfo.text =
    createChunksLoop maxW ow S (acc.map ChunkInfo.text) (pre ++ sents) count := by
  intro S
  induction S with
  | nil =>
      intro acc pre sents count
      by_cases h : pre ++ sents = []
      · simp [chunksAnnotLoop, createChunksLoop, h]
      · simp [chunksAnnotLoop, createChunksLoop, h, ChunkInfo.text]
  | cons s rest ih =>
      intro acc pre sents count
      by_cases h : count + wc s > maxW
      · simp only [chunksAnnotLoop, createChunksLoop, if_pos h]
        rw [ih]
        simp [ChunkInfo.text]
      · simp only [chunksAnnotLoop, createChunksLoop, if_neg h]
        rw [ih]
        simp

/-- The annotated chunks project onto `create_chunks`. -/
lemma chunksAnnot_text (S : List Str) (maxW ow : Nat) :
    (chunksAnnot S maxW ow).map ChunkInfo.text = create_chunks S maxW ow := by
  unfold chunksAnnot create_chunks
  simpa using chunksAnnotLoop_text maxW ow S [] [] [] 0

/-- The sentences recorded by the annotated loop partition the input. -/
lemma chunksAnnotLoop_sents (maxW ow : Nat) : ∀ (S : List Str)
    (acc : List ChunkInfo) (pre sents : List Str) (count : Nat),
    (chunksAnnotLoop maxW ow S acc pre sents count).flatMap ChunkInfo.sents =
    acc.flatMap ChunkInfo.sents ++ sents ++ S := by
  intro S
  induction S with
  | nil =>
      intro acc pre sents count
      by_cases h : pre ++ sents = []
      · obtain ⟨hp, hs⟩ := List.append_eq_nil.mp h
        simp [chunksAnnotLoop, hp, hs]
      · simp [chunksAnnotLoop, h]
  | cons s rest ih =>
      intro acc pre sents count
      by_cases h : count + wc s > maxW
      · simp only [chunksAnnotLoop, if_pos h]
        rw [ih]
        simp
      · simp only [chunksAnnotLoop, if_neg h]
        rw [ih]
        simp

-- ## Overlap lemmas

/-- Every element of an overlap is a genuine word of the closed chunk. -/
lemma overlapOf_words (cur : List Str) (ow : Nat) :
    ∀ w ∈ overlapOf cur ow, w ≠ [] ∧ ∀ c ∈ w, c.isWhitespace = false := by
  intro w hw
  have hw' : w ∈ splitWords (joinSp cur) := by
    by_cases h1 : (splitWords (joinSp cur)).length ≥ ow
    · by_cases h2 : ow = 0
      · simpa [overlapOf, pySliceLast, h1, h2] using hw
      · exact List.drop_subset _ _
          (by simpa [overlapOf, pySliceLast, h1, h2] using hw)
    · simpa [overlapOf, pySliceLast, h1] using hw
  exact splitWords_words (joinSp cur) w hw'

/-- Joining the overlap words and re-counting recovers the overlap length. -/
lemma wc_joinSp_overlap (cur : List Str) (ow : Nat) :
    wc (joinSp (overlapOf cur ow)) = (overlapOf cur ow).length := by
  unfold wc
  rw [splitWords_joinSp_words _ (overlapOf_words cur ow)]

/-- For a positive overlap parameter, the overlap is exactly the last
`min ow n` of the `n` words of the closed chunk. -/
lemma overlapOf_eq_lastWords (cur : List Str) (ow : Nat) (how : 1 ≤ ow) :
    overlapOf cur ow =
      lastWords (min ow (splitWords (joinSp cur)).length) (splitWords (joinSp cur)) ∧
    (overlapOf cur ow).length = min ow (splitWords (joinSp cur)).length := by
  by_cases h : (splitWords (joinSp cur)).length ≥ ow
  · have how0 : ¬ ow = 0 := by omega
    have hmin : min ow (splitWords (joinSp cur)).length = ow := Nat.min_eq_left h
    constructor
    · simp only [overlapOf, pySliceLast, lastWords, if_pos h, how0, if_false, hmin]
    · simp only [overlapOf, pySliceLast, if_pos h, how0, if_false, List.length_drop]
      omega
  · have hlt : (splitWords (joinSp cur)).length < ow := by omega
    have hmin : min ow (splitWords (joinSp cur)).length =
        (splitWords (joinSp cur)).length := Nat.min_eq_right (by omega)
    constructor
    · simp [overlapOf, pySliceLast, lastWords, h, hmin]
    · simp [overlapOf, pySliceLast, h, hmin]

/-- Closing an empty current chunk produces an empty overlap. -/
lemma overlapOf_nil (ow : Nat) : overlapOf [] ow = [] := by
  simp [overlapOf, pySliceLast, joinSp, splitWords, splitWordsAux]

-- ## Accumulator lemmas for the plain loop

/-- The output accumulator of the chunk loop is a pure prefix. -/
lemma createChunksLoop_acc (maxW ow : Nat) : ∀ (S chunks current : List Str)
    (count : Nat),
    createChunksLoop maxW ow S chunks current count =
    chunks ++ createChunksLoop maxW ow S [] current count := by
  intro S
  induction S with
  | nil =>
      intro chunks current count
      by_cases h : current = [] <;> simp [createChunksLoop, h]
  | cons s rest ih =>
      intro chunks current count
      by_cases h : count + wc s > maxW
      · simp only [createChunksLoop, if_pos h]
        rw [ih (chunks ++ [joinSp current]), ih ([] ++ [joinSp current])]
        simp
      · simp only [createChunksLoop, if_neg h]
        exact ih chunks (current ++ [s]) (count + wc s)

/-- Once the running count exceeds `maxW`, the current chunk is emitted as
the very next chunk, whatever the remaining sentences are. -/
lemma oversized_tail (maxW ow : Nat) (rest chunks cur : List Str) (count : Nat)
    (hcur : cur ≠ []) (hcnt : maxW < count) :
    ∃ t, createChunksLoop maxW ow rest chunks cur count =
      chunks ++ joinSp cur :: t := by
  cases rest with
  | nil => exact ⟨[], by simp [createChunksLoop, hcur]⟩
  | cons r rs =>
      have hb : count + wc r > maxW := by omega
      refine ⟨createChunksLoop maxW ow rs [] [joinSp (overlapOf cur ow), r]
        ((overlapOf cur ow).length + wc r), ?_⟩
      simp only [createChunksLoop, if_pos hb]
      rw [createChunksLoop_acc]
      simp

-- ## Word-count bound invariant

lemma sentSum_nil : sentSum [] = 0 := rfl

lemma sentSum_singleton (s : Str) : sentSum [s] = wc s := by simp [sentSum]

lemma sentSum_append (a b : List Str) : sentSum (a ++ b) = sentSum a + sentSum b := by
  simp [sentSum]

lemma sentSum_concat (l : List Str) (s : Str) :
    sentSum (l ++ [s]) = sentSum l + wc s := by
  simp [sentSum]

/-- The word count of a chunk minus the word count of its seed is the total
word count of the sentences placed in it. -/
lemma wc_text_sub (ci : ChunkInfo) :
    wc ci.text - wc (joinSp ci.pre) = sentSum ci.sents := by
  unfold ChunkInfo.text
  rw [wc_joinSp, wc_joinSp, sentSum_append]
  omega

/-- Main invariant: every chunk emitted by the annotated loop either keeps
its own sentences within `maxW` words or contains a single oversized
sentence. -/
lemma chunksAnnotLoop_bound (maxW ow : Nat) : ∀ (S : List Str)
    (acc : List ChunkInfo) (pre sents : List Str) (count : Nat),
    (∀ ci ∈ acc, sentSum ci.sents ≤ maxW ∨ ∃ s ∈ ci.sents, maxW < wc s) →
    count = sentSum pre + sentSum sents →
    (sentSum sents ≤ maxW ∨ ∃ s ∈ sents, maxW < wc s) →
    ∀ ci ∈ chunksAnnotLoop maxW ow S acc pre sents count,
      sentSum ci.sents ≤ maxW ∨ ∃ s ∈ ci.sents, maxW < wc s := by
  intro S
  induction S with
  | nil =>
      intro acc pre sents count hacc _ hcur ci hci
      by_cases h : pre ++ sents = []
      · exact hacc ci (by simpa [chunksAnnotLoop, h] using hci)
      · simp only [chunksAnnotLoop, h, if_false, List.mem_append,
          List.mem_singleton] at hci
        rcases hci with hci | hci
        · exact hacc ci hci
        · subst hci; exact hcur
  | cons s rest ih =>
      intro acc pre sents count hacc hcount hcur ci hci
      by_cases h : count + wc s > maxW
      · simp only [chunksAnnotLoop, if_pos h] at hci
        refine ih _ _ _ _ ?_ ?_ ?_ ci hci
        · intro cj hcj
          rcases List.mem_append.mp hcj with hcj | hcj
          · exact hacc cj hcj
          · rw [List.mem_singleton.mp hcj]; exact hcur
        · rw [sentSum_singleton, sentSum_singleton, wc_joinSp_overlap]
        · rcases le_or_lt (wc s) maxW with hle | hlt
          · left; rw [sentSum_singleton]; exact hle
          · right; exact ⟨s, List.mem_singleton.mpr rfl, hlt⟩
      · simp only [chunksAnnotLoop, if_neg h] at hci
        refine ih _ _ _ _ hacc ?_ ?_ ci hci
        · rw [sentSum_concat]; omega
        · left
          rw [sentSum_concat]
          omega

-- ## Path construction (pathlib model)

/-- `Path(dir) / name` for a plain file name. -/
def pathJoin (dir name : Str) : Str := dir ++ '/' :: name

/-- `Path.name`: the final path component. -/
def lastComponent (p : Str) : Str :=
  (p.reverse.takeWhile (fun c => !(c == '/'))).reverse

/-- `Path.suffix`: with `i` the index of the last dot of the name, the
substring from `i` when `0 < i < len(name) - 1`, else empty.  The reverse
index `j` of the first dot of the reversed name satisfies `i = len - 1 - j`,
turning the condition into `0 < j ∧ j < len - 1`. -/
def pySuffix (p : Str) : Str :=
  let n := lastComponent p
  match n.reverse.findIdx? (· == '.') with
  | none => []
  | some j =>
      if 0 < j ∧ j < n.length - 1 then (n.reverse.take (j + 1)).reverse else []

/-- `Path.with_suffix(suf)`: strip the old suffix (a tail of the path) and
append the new one. -/
def pyWithSuffix (p suf : Str) : Str :=
  p.take (p.length - (pySuffix p).length) ++ suf

/-- `Path.stem`: the final component without its suffix. -/
def pyStem (p : Str) : Str :=
  let n := lastComponent p
  n.take (n.length - (pySuffix p).length)

/-- `construct_audio_path` from 01_transcribe_audio.py: join the directory
and name, then force the `.ogg` suffix when absent. -/
def construct_audio_path (audio_name input_directory : Str) : Str :=
  let audio_path := pathJoin input_directory audio_name
  if pySuffix audio_path ≠ strL ".ogg" then pyWithSuffix audio_path (strL ".ogg")
  else audio_path

/-- `construct_transcription_path` from 02_summarize_transcription.py: join
the directory and name, then force the `.txt` suffix when absent. -/
def construct_transcription_path (transcription_name input_directory : Str) : Str :=
  let transcription_path := pathJoin input_directory transcription_name
  if pySuffix transcription_path ≠ strL ".txt" then
    pyWithSuffix transcription_path (strL ".txt")
  else transcription_path

-- ## Prompt construction (generate_summary_for_chunk system message)

/-- The fixed preamble of the system message (three adjacent Python string
literals concatenated; the apostrophe is spliced as character 39). -/
def preamble : Str :=
  strL "You are a precise AI assistant that summarizes transcriptions of spoken content. The transcription may involve multiple speakers. Don" ++
    [Char.ofNat 39] ++
    strL "t waste words with filler like \"in this transcription...\", \"the speaker says...\"."

def extractiveClause : Str :=
  strL "Provide an extractive summary, focusing on the key points and main ideas directly from the text. "

def abstractiveClause : Str :=
  strL "Provide an abstractive summary, paraphrasing and revealing the main ideas in your own words. "

def verboseClause : Str :=
  strL "Ensure that the summary is detailed with minimal compression, covering all essential aspects comprehensively."

def succinctClause : Str :=
  strL "Ensure that the summary is concise and succinct, capturing the main points effectively with minimal words."

/-- The system message built by `generate_summary_for_chunk`: the preamble,
one mode clause chosen by `summarization_type == "extractive"`, and one
verbosity clause chosen by `verbosity == "verbose"`. -/
def systemContent (summarization_type verbosity : Str) : Str :=
  preamble ++
    (if summarization_type = strL "extractive" then extractiveClause
     else abstractiveClause) ++
    (if verbosity = strL "verbose" then verboseClause else succinctClause)

-- ## Substring search

/-- Whether `sub` is a leading segment of `s`. -/
def listStartsWith : List Char → List Char → Bool
  | [], _ => true
  | _ :: _, [] => false
  | a :: as, b :: bs => a == b && listStartsWith as bs

/-- Whether `sub` occurs contiguously inside `s`. -/
def hasSubstr : List Char → List Char → Bool
  | [], sub => listStartsWith sub []
  | c :: cs, sub => listStartsWith sub (c :: cs) || hasSubstr cs sub

lemma listStartsWith_append (b c : Str) : listStartsWith b (b ++ c) = true := by
  induction b with
  | nil => simp [listStartsWith]
  | cons x xs ih => simp [listStartsWith, ih]

/-- A leading occurrence is an occurrence. -/
lemma hasSubstr_of_startsWith (s b : Str) (h : listStartsWith b s = true) :
    hasSubstr s b = true := by
  cases s with
  | nil => simpa [hasSubstr] using h
  | cons x xs => simp [hasSubstr, h]

/-- A list occurs inside any surrounding context. -/
lemma hasSubstr_sandwich (a b c : Str) : hasSubstr (a ++ (b ++ c)) b = true := by
  induction a with
  | nil =>
      rw [List.nil_append]
      exact hasSubstr_of_startsWith _ _ (listStartsWith_append b c)
  | cons x a ih => simp [hasSubstr, ih]

-- ## Summarizer (02_summarize_transcription.py)

/-- Python newline join of a list of strings. -/
def joinNl : List Str → Str
  | [] => []
  | [x] => x
  | x :: y :: rest => x ++ '\n' :: joinNl (y :: rest)

/-- `generate_summary_for_chunk`: the hosted text-generation service is an
opaque boundary, abstracted as an oracle `svc`; a service error makes the
function print a diagnostic and terminate the process with status 1,
modelled as `Except.error 1`. -/
def generate_summary_for_chunk (svc : Str → Option Str) (chunk_text : Str) :
    Except Nat Str :=
  match svc chunk_text with
  | some summary => Except.ok summary
  | none => Except.error 1

/-- The chunk loop of `generate_full_summary`: per-chunk summaries are
collected in input order; the first failure aborts. -/
def collectSummaries (svc : Str → Option Str) : List Str → Except Nat (List Str)
  | [] => Except.ok []
  | c :: rest =>
      match generate_summary_for_chunk svc c with
      | Except.error code => Except.error code
      | Except.ok s =>
          match collectSummaries svc rest with
          | Except.error code => Except.error code
          | Except.ok ss => Except.ok (s :: ss)

/-- `generate_full_summary`: split into sentences, chunk with the default
`max_words=750`, `overlap_words=75`, summarize each chunk, join with
newlines. -/
def generate_full_summary (svc : Str → Option Str) (transcription_text : Str) :
    Except Nat Str :=
  match collectSummaries svc
      (create_chunks (split_into_sentences transcription_text) 750 75) with
  | Except.error code => Except.error code
  | Except.ok ss => Except.ok (joinNl ss)

/-- `main` of the summarizer stage, from the point where the transcription
content has been read (`transcription_text`).  On success the single
persisted artifact is the summary file, returned as its path and content;
on a service failure the process exits with the carried status and nothing
is written. -/
def summarizeMain (svc : Str → Option Str) (transcription_text : Str)
    (transcription_name input_directory summary_directory : Str) :
    Except Nat (Str × Str) :=
  let transcription_path :=
    construct_transcription_path transcription_name input_directory
  match generate_full_summary svc transcription_text with
  | Except.error code => Except.error code
  | Except.ok full_summary =>
      Except.ok
        (pathJoin summary_directory (pyStem transcription_path ++ strL ".txt"),
         full_summary)

/-- Successful collection relates chunks to summaries pointwise in order. -/
lemma collectSummaries_ok (svc : Str → Option Str) : ∀ (l ss : List Str),
    collectSummaries svc l = Except.ok ss →
    List.Forall₂ (fun c s => svc c = some s) l ss := by
  intro l
  induction l with
  | nil =>
      intro ss h
      simp only [collectSummaries, Except.ok.injEq] at h
      subst h
      exact List.Forall₂.nil
  | cons c rest ih =>
      intro ss h
      cases hc : svc c with
      | none => simp [collectSummaries, generate_summary_for_chunk, hc] at h
      | some s =>
          cases hr : collectSummaries svc rest with
          | error code =>
              simp [collectSummaries, generate_summary_for_chunk, hc, hr] at h
          | ok ss' =>
              simp only [collectSummaries, generate_summary_for_chunk, hc, hr,
                Except.ok.injEq] at h
              subst h
              exact List.Forall₂.cons hc (ih ss' hr)

/-- A failing chunk anywhere aborts the collection with status 1. -/
lemma collectSummaries_fail (svc : Str → Option Str) : ∀ (l : List Str),
    (∃ c ∈ l, svc c = none) → collectSummaries svc l = Except.error 1 := by
  intro l
  induction l with
  | nil => rintro ⟨c, hc, -⟩; simp at hc
  | cons c rest ih =>
      rintro ⟨d, hd, hnone⟩
      rcases List.mem_cons.mp hd with hd | hd
      · subst hd
        simp [collectSummaries, generate_summary_for_chunk, hnone]
      · cases hc : svc c with
        | none => simp [collectSummaries, generate_summary_for_chunk, hc]
        | some s =>
            simp [collectSummaries, generate_summary_for_chunk, hc,
              ih ⟨d, hd, hnone⟩]

-- ## Transcriber (01_transcribe_audio.py)

/-- Observable effects of a transcriber run; stdout progress messages are
elided, error diagnostics are retained. -/
inductive Eff where
  | message (msg : Str)
  | makeDir (d : Str)
  | writeFile (path content : Str)
  | exitCode (code : Nat)
deriving DecidableEq

/-- Python truthiness of an optional string: present and non-empty. -/
def truthy : Option Str → Bool
  | none => false
  | some s => !s.isEmpty

def api_key_missing_msg : Str :=
  strL "Error: OpenAI API key not provided. Use the --api_key argument or set the OPENAI_API_KEY environment variable."

/-- The missing-file diagnostic, quoting the resolved path between
apostrophes (character 39). -/
def audio_missing_msg (p : Str) : Str :=
  strL "Error: The audio file " ++ [Char.ofNat 39] ++ p ++ [Char.ofNat 39] ++
    strL " does not exist."

def transcription_failed_msg : Str :=
  strL "An error occurred during transcription."

/-- `main` of the transcriber stage as its sequence of observable effects:
resolve the key (flag first, then environment), resolve the audio path,
abort on a missing file, create the transcript directory, transcribe
through the opaque service oracle `svc`, write the transcript. -/
def transcribeMain (provided envKey : Option Str) (fileOnDisk : Str → Bool)
    (svc : Str → Option Str)
    (audio_name input_directory transcript_directory : Str) : List Eff :=
  let key := if truthy provided then provided else envKey
  if truthy key then
    let audio_path := construct_audio_path audio_name input_directory
    if fileOnDisk audio_path then
      let transcript_path :=
        pathJoin transcript_directory (pyStem audio_path ++ strL ".txt")
      match svc audio_path with
      | some transcript =>
          [Eff.makeDir transcript_directory,
           Eff.writeFile transcript_path transcript]
      | none =>
          [Eff.makeDir transcript_directory,
           Eff.message transcription_failed_msg, Eff.exitCode 1]
    else
      [Eff.message (audio_missing_msg audio_path), Eff.exitCode 1]
  else
    [Eff.message api_key_missing_msg, Eff.exitCode 1]

-- ## Claim theorems

/-- C1: the claim says stage 2 resolves its input to `<dir>/<name>.opus`,
and the rest of the pipeline produces only `<name>.opus`; the code instead
forces the `.ogg` suffix, even replacing an explicitly supplied `.opus`,
so the artifact of the previous stage can never be resolved. -/
theorem c1_audio_path_forces_ogg :
    construct_audio_path (strL "ist_means_ist") (strL "audio") =
      strL "audio/ist_means_ist.ogg" ∧
    construct_audio_path (strL "ist_means_ist") (strL "audio") ≠
      strL "audio/ist_means_ist.opus" ∧
    construct_audio_path (strL "ist_means_ist.opus") (strL "audio") =
      strL "audio/ist_means_ist.ogg" := by decide

/-- C2: for every sentence list and every `max_words ≥ 1`, each produced
chunk keeps its word count, minus the word count of its leading overlap
seed, within `max_words`, unless a single sentence placed in that chunk is
itself oversized.  The annotated chunks project onto the actual output of
`create_chunks`. -/
theorem c2_chunk_word_bound (S : List Str) (maxW ow : Nat) (h : 1 ≤ maxW) :
    (chunksAnnot S maxW ow).map ChunkInfo.text = create_chunks S maxW ow ∧
    ∀ ci ∈ chunksAnnot S maxW ow,
      wc ci.text - wc (joinSp ci.pre) ≤ maxW ∨ ∃ s ∈ ci.sents, maxW < wc s := by
  refine ⟨chunksAnnot_text S maxW ow, ?_⟩
  intro ci hci
  have hmain := chunksAnnotLoop_bound maxW ow S [] [] [] 0
    (by intro cj hcj; exact absurd hcj (List.not_mem_nil cj))
    rfl
    (Or.inl (Nat.zero_le maxW))
    ci hci
  rcases hmain with h1 | h1
  · left; rw [wc_text_sub]; exact h1
  · right; exact h1

theorem c2_chunk_word_bound_witness :
    1 ≤ 2 ∧
    (chunksAnnot [strL "One.", strL "Two.", strL "Three."] 2 1).map ChunkInfo.text =
      create_chunks [strL "One.", strL "Two.", strL "Three."] 2 1 :=
  ⟨by decide,
   (c2_chunk_word_bound [strL "One.", strL "Two.", strL "Three."] 2 1 (by decide)).1⟩

/-- C3 counterexample: with `overlap_words = 0`, Python `words[-0:]` is the
whole word list, so closing the two-word chunk "a b" seeds the next chunk
with both words instead of `min 0 2 = 0` of them, visible in the second
output chunk "a b c". -/
theorem c3_overlap_zero_counterexample :
    create_chunks [strL "a b", strL "c"] 2 0 = [strL "a b", strL "a b c"] ∧
    overlapOf [strL "a b"] 0 = [strL "a", strL "b"] ∧
    (overlapOf [strL "a b"] 0).length ≠
      min 0 (splitWords (joinSp [strL "a b"])).length := by decide

/-- C3 (amended): whenever the chunker closes a chunk and
`overlap_words ≥ 1`, the overlap seed is exactly the last
`min overlap_words n` of the `n` words of the closed chunk, and the next
chunk starts from the seed text with its running count initialized to the
seed word count (before the pending sentence and its count are added). -/
theorem c3_overlap_seed (ow : Nat) (how : 1 ≤ ow) (current chunks : List Str)
    (maxW count : Nat) (s : Str) (rest : List Str)
    (hclose : count + wc s > maxW) :
    overlapOf current ow =
      lastWords (min ow (splitWords (joinSp current)).length)
        (splitWords (joinSp current)) ∧
    (overlapOf current ow).length =
      min ow (splitWords (joinSp current)).length ∧
    createChunksLoop maxW ow (s :: rest) chunks current count =
      createChunksLoop maxW ow rest (chunks ++ [joinSp current])
        [joinSp (overlapOf current ow), s]
        ((overlapOf current ow).length + wc s) := by
  obtain ⟨h1, h2⟩ := overlapOf_eq_lastWords current ow how
  exact ⟨h1, h2, by simp only [createChunksLoop, if_pos hclose]⟩

theorem c3_overlap_seed_witness :
    overlapOf [strL "One. Two."] 1 =
      lastWords (min 1 (splitWords (joinSp [strL "One. Two."])).length)
        (splitWords (joinSp [strL "One. Two."])) ∧
    (overlapOf [strL "One. Two."] 1).length =
      min 1 (splitWords (joinSp [strL "One. Two."])).length :=
  ⟨(c3_overlap_seed 1 (by decide) [strL "One. Two."] [] 2 2 (strL "Three.") []
      (by decide)).1,
   (c3_overlap_seed 1 (by decide) [strL "One. Two."] [] 2 2 (strL "Three.") []
      (by decide)).2.1⟩

/-- C4: for every input text, the chunks cover the sentence sequence of the
text: each chunk is the join of its seed and its sentences, and dropping
each chunk overlap seed and concatenating leaves exactly the original
sentence sequence, in order. -/
theorem c4_chunks_reconstruct (text : Str) (maxW ow : Nat) :
    (chunksAnnot (split_into_sentences text) maxW ow).map ChunkInfo.text =
      create_chunks (split_into_sentences text) maxW ow ∧
    (chunksAnnot (split_into_sentences text) maxW ow).flatMap ChunkInfo.sents =
      split_into_sentences text := by
  refine ⟨chunksAnnot_text _ maxW ow, ?_⟩
  have hmain := chunksAnnotLoop_sents maxW ow (split_into_sentences text) [] [] [] 0
  simpa using hmain

/-- C5: the deterministic trace of §8: sentences "One.", "Two.", "Three."
with `max_words = 2`, `overlap_words = 1` yield exactly two chunks, the
first joining "One." and "Two.", the second starting with the last word of
the first chunk followed by "Three.". -/
theorem c5_concrete_trace :
    create_chunks [strL "One.", strL "Two.", strL "Three."] 2 1 =
      [joinSp [strL "One.", strL "Two."], joinSp [strL "Two.", strL "Three."]] ∧
    lastWords 1 (splitWords (joinSp [strL "One.", strL "Two."])) =
      [strL "Two."] := by decide

/-- C6: empty input text splits into the single empty sentence, and the
chunker (at the default parameters used by the program) emits exactly one
chunk, the empty string. -/
theorem c6_empty_input :
    create_chunks (split_into_sentences (strL "")) 750 75 = [strL ""] := by decide

/-- C7: the extractive/verbose system message contains the extractive and
verbose clauses and neither the abstractive nor the succinct clause; in
general the message is the fixed preamble followed by exactly one mode
clause and one verbosity clause of the 2x2 table. -/
theorem c7_prompt_construction :
    hasSubstr (systemContent (strL "extractive") (strL "verbose"))
      extractiveClause = true ∧
    hasSubstr (systemContent (strL "extractive") (strL "verbose"))
      verboseClause = true ∧
    hasSubstr (systemContent (strL "extractive") (strL "verbose"))
      abstractiveClause = false ∧
    hasSubstr (systemContent (strL "extractive") (strL "verbose"))
      succinctClause = false ∧
    ∀ st vb : Str, ∃ m v : Str,
      (m = extractiveClause ∨ m = abstractiveClause) ∧
      (v = verboseClause ∨ v = succinctClause) ∧
      systemContent st vb = preamble ++ (m ++ v) := by
  refine ⟨by decide, by decide, by decide, by decide, ?_⟩
  intro st vb
  by_cases hst : st = strL "extractive" <;> by_cases hvb : vb = strL "verbose"
  · exact ⟨extractiveClause, verboseClause, Or.inl rfl, Or.inl rfl,
      by simp [systemContent, hst, hvb]⟩
  · exact ⟨extractiveClause, succinctClause, Or.inl rfl, Or.inr rfl,
      by simp [systemContent, hst, hvb]⟩
  · exact ⟨abstractiveClause, verboseClause, Or.inr rfl, Or.inl rfl,
      by simp [systemContent, hst, hvb]⟩
  · exact ⟨abstractiveClause, succinctClause, Or.inr rfl, Or.inr rfl,
      by simp [systemContent, hst, hvb]⟩

/-- C8: on success the summarizer persists exactly the newline join of the
per-chunk summaries, which correspond to the chunks pointwise in input
order; if any chunk fails, the run ends with status 1 and nothing is
written. -/
theorem c8_summary_assembly (svc : Str → Option Str)
    (text name idir sdir : Str) :
    (∀ ss : List Str,
        collectSummaries svc (create_chunks (split_into_sentences text) 750 75) =
          Except.ok ss →
        summarizeMain svc text name idir sdir =
          Except.ok
            (pathJoin sdir
              (pyStem (construct_transcription_path name idir) ++ strL ".txt"),
             joinNl ss) ∧
        List.Forall₂ (fun c s => svc c = some s)
          (create_chunks (split_into_sentences text) 750 75) ss) ∧
    ((∃ c ∈ create_chunks (split_into_sentences text) 750 75, svc c = none) →
        summarizeMain svc text name idir sdir = Except.error 1) := by
  constructor
  · intro ss h
    refine ⟨?_, collectSummaries_ok svc _ ss h⟩
    simp [summarizeMain, generate_full_summary, h]
  · intro hfail
    have hcol := collectSummaries_fail svc _ hfail
    simp [summarizeMain, generate_full_summary, hcol]

theorem c8_summary_assembly_witness :
    summarizeMain (fun c => some c) (strL "Hi.") (strL "t") (strL "transcripts")
        (strL "summaries") =
      Except.ok
        (pathJoin (strL "summaries")
          (pyStem (construct_transcription_path (strL "t") (strL "transcripts")) ++
            strL ".txt"),
         joinNl [strL "Hi."]) ∧
    summarizeMain (fun _ => none) (strL "Hi.") (strL "t") (strL "transcripts")
        (strL "summaries") = Except.error 1 :=
  ⟨((c8_summary_assembly (fun c => some c) (strL "Hi.") (strL "t")
        (strL "transcripts") (strL "summaries")).1 [strL "Hi."] rfl).1,
   (c8_summary_assembly (fun _ => none) (strL "Hi.") (strL "t")
        (strL "transcripts") (strL "summaries")).2 ⟨strL "Hi.", by decide, rfl⟩⟩

/-- C9: with a resolvable key and a missing audio file, the transcriber run
is exactly one diagnostic (containing the resolved path) followed by exit
status 1; no directory is created and no file is written. -/
theorem c9_missing_audio_aborts (provided envKey : Option Str)
    (fileOnDisk : Str → Bool) (svc : Str → Option Str)
    (audio_name input_directory transcript_directory : Str)
    (hkey : truthy (if truthy provided then provided else envKey) = true)
    (hmiss : fileOnDisk (construct_audio_path audio_name input_directory) = false) :
    transcribeMain provided envKey fileOnDisk svc audio_name input_directory
        transcript_directory =
      [Eff.message (audio_missing_msg (construct_audio_path audio_name input_directory)),
       Eff.exitCode 1] ∧
    hasSubstr (audio_missing_msg (construct_audio_path audio_name input_directory))
      (construct_audio_path audio_name input_directory) = true ∧
    ∀ e ∈ transcribeMain provided envKey fileOnDisk svc audio_name
        input_directory transcript_directory,
      (∀ d, e ≠ Eff.makeDir d) ∧ ∀ pth c, e ≠ Eff.writeFile pth c := by
  have htrace : transcribeMain provided envKey fileOnDisk svc audio_name
      input_directory transcript_directory =
      [Eff.message (audio_missing_msg (construct_audio_path audio_name input_directory)),
       Eff.exitCode 1] := by
    simp [transcribeMain, hkey, hmiss]
  refine ⟨htrace, ?_, ?_⟩
  · have hsw := hasSubstr_sandwich
      (strL "Error: The audio file " ++ [Char.ofNat 39])
      (construct_audio_path audio_name input_directory)
      ([Char.ofNat 39] ++ strL " does not exist.")
    unfold audio_missing_msg
    simpa [List.append_assoc] using hsw
  · intro e he
    rw [htrace] at he
    rcases List.mem_cons.mp he with he | he
    · subst he
      exact ⟨fun d => by simp, fun pth c => by simp⟩
    · have he' : e = Eff.exitCode 1 := by simpa using he
      subst he'
      exact ⟨fun d => by simp, fun pth c => by simp⟩

theorem c9_missing_audio_aborts_witness :
    transcribeMain (some (strL "k")) none (fun _ => false) (fun _ => none)
        (strL "ist_means_ist") (strL "audio") (strL "transcripts") =
      [Eff.message (audio_missing_msg
          (construct_audio_path (strL "ist_means_ist") (strL "audio"))),
       Eff.exitCode 1] :=
  (c9_missing_audio_aborts (some (strL "k")) none (fun _ => false)
      (fun _ => none) (strL "ist_means_ist") (strL "audio") (strL "transcripts")
      (by decide) rfl).1

/-- C10: when the first sentence alone exceeds `max_words`, the empty
current chunk is flushed as a leading empty chunk, and the next chunk is
the join of the empty overlap text with that sentence, hence starts with a
space. -/
theorem c10_oversized_first_sentence (s : Str) (rest : List Str)
    (maxW ow : Nat) (h : maxW < wc s) :
    ∃ t, create_chunks (s :: rest) maxW ow = ([] : Str) :: (' ' :: s) :: t := by
  unfold create_chunks
  have hb : 0 + wc s > maxW := by omega
  have key : createChunksLoop maxW ow (s :: rest) [] [] 0 =
      createChunksLoop maxW ow rest [[]] [[], s] (0 + wc s) := by
    simp only [createChunksLoop, if_pos hb, overlapOf_nil]
    simp [joinSp]
  rw [key]
  obtain ⟨t, ht⟩ := oversized_tail maxW ow rest [[]] [[], s] (0 + wc s)
    (by simp) (by omega)
  refine ⟨t, ?_⟩
  rw [ht]
  simp [joinSp]

theorem c10_oversized_first_sentence_witness :
    1 < wc (strL "a b") ∧
    ∃ t, create_chunks [strL "a b"] 1 75 = ([] : Str) :: (' ' :: strL "a b") :: t :=
  ⟨by decide, c10_oversized_first_sentence (strL "a b") [] 1 75 (by decide)⟩
